import Mathlib

/-!
Verification of the benchmark-results dashboard core.

The TypeScript source is shallowly embedded: JS numbers become `ℚ` (token
counts, which the data model constrains to non-negative integers, become `ℕ`),
`T | null` / optional fields become `Option T`, JS strings become `String`
(UTF-16 units modelled as `Char` lists), and the JS `Map` becomes an
association list with insertion-order semantics.  `Math.round` and `toFixed`
both round half away from zero on the non-negative values arising here, which
coincides with Mathlib's `round` (half towards +∞).
-/

namespace BenchmarkDashboard

/-! ### JS string primitives -/

/-- JS `s.length` (UTF-16 units, modelled as characters). -/
def strLen (s : String) : ℕ := s.toList.length

/-- JS `s.slice(0, n)`. -/
def jsSlice (s : String) (n : ℕ) : String := String.mk (s.toList.take n)

/-- JS string concatenation `a + b`. -/
def jsConcat (a b : String) : String := String.mk (a.toList ++ b.toList)

/-- Whitespace recognised by JS `trimEnd` (the characters that occur here). -/
def isJsSpace (c : Char) : Bool := c = ' ' || c = '\t' || c = '\n' || c = '\r'

/-- JS `s.trimEnd()`. -/
def trimEnd (s : String) : String :=
  String.mk (s.toList.reverse.dropWhile isJsSpace).reverse

/-- JS `s.includes(c)` for a one-character needle. -/
def jsIncludesChar (s : String) (c : Char) : Bool := s.toList.contains c

/-- JS `s.split(sep).pop()` for a one-character separator: the last field of
the split, i.e. the suffix of `s` after the last occurrence of `sep` (the
whole string when `sep` does not occur). -/
def jsSplitLast (s : String) (sep : Char) : String :=
  String.mk (s.toList.reverse.takeWhile (· ≠ sep)).reverse

/-- JS `Math.round` (half towards +∞), as used on score fractions. -/
def jsRound (q : ℚ) : ℤ := round q

/-- JS `(+x.toFixed(d))`: the numeric value of `x` rounded to `d` decimals. -/
def toFixedQ (d : ℕ) (q : ℚ) : ℚ :=
  ((round (q * (10 : ℚ) ^ d) : ℤ) : ℚ) / (10 : ℚ) ^ d

/-! ### JS `Map` as an insertion-ordered association list

`Map.set` overwrites in place when the key is present (keeping its position)
and appends otherwise; `Map.get` finds the unique entry. -/

/-- JS `Map.prototype.set`. -/
def mapSet {α : Type} : List (String × α) → String → α → List (String × α)
  | [], k, v => [(k, v)]
  | (k', v') :: t, k, v =>
      if k' = k then (k, v) :: t else (k', v') :: mapSet t k v

/-- JS `Map.prototype.get`. -/
def mapGet {α : Type} : List (String × α) → String → Option α
  | [], _ => none
  | (k', v) :: t, k => if k' = k then some v else mapGet t k

/-! ### Data model (`src/unnamed/part_000`, the `api` module) -/

/-- `RunRow` from the api module. -/
structure RunRow where
  id : String
  status : String
  dataset : String
  prompt_version : String
  schema_version : String
  harness : String
  provider : String
  model : String
  total_files : ℕ
  completed_files : ℕ
  avg_score : Option ℚ
  total_duration_ms : Option ℚ
  started_at : String
  finished_at : Option String
  total_input_tokens : Option ℕ
  total_output_tokens : Option ℕ
  prompt_preview : Option String
deriving Repr, DecidableEq

/-- The `costPer1MTokens` pair of a `CatalogModel`. -/
structure Pricing where
  input : ℚ
  output : ℚ
deriving Repr, DecidableEq

/-- `CatalogModel` from the api module. -/
structure CatalogModel where
  provider : String
  id : String
  displayName : String
  family : Option String
  supportsStructuredOutput : Bool
  active : Bool
  releaseDate : Option String
  costPer1MTokens : Option Pricing
  contextWindow : Option ℕ
  maxOutput : Option ℕ
deriving Repr, DecidableEq

/-- `FileResultRow` from the api module. -/
structure FileResultRow where
  file_id : String
  score : ℚ
deriving Repr, DecidableEq

/-! ### Selection-to-visualization resolver (`src/unnamed/part_001`, `DashboardPage`)

`const chartRuns = selectedRuns.length >= 2 ? selectedRuns : filteredRuns;` -/

/-- The `chartRuns` computation of `DashboardPage`. -/
def resolveChartRuns (selectedRuns filteredRuns : List RunRow) : List RunRow :=
  if 2 ≤ selectedRuns.length then selectedRuns else filteredRuns

/-- The render guard `chartRuns.length >= 2 && <ComparisonCharts .../>`. -/
def comparisonRendered (chartRuns : List RunRow) : Bool :=
  2 ≤ chartRuns.length

/-! ### Cost (`ComparisonCharts.tsx` `computeRunCost`, `part_001` `formatCost`) -/

/-- `computeRunCost(run, model)` from `ComparisonCharts.tsx`. -/
def computeRunCost (run : RunRow) (model : Option CatalogModel) : Option ℚ :=
  match model.bind (·.costPer1MTokens) with
  | none => none
  | some p =>
      let inp : ℚ := (run.total_input_tokens.getD 0 : ℕ)
      let out : ℚ := (run.total_output_tokens.getD 0 : ℕ)
      if inp = 0 ∧ out = 0 then none
      else some ((inp / 1000000) * p.input + (out / 1000000) * p.output)

/-- What the `formatCost` string displays: the em-dash, or a dollar amount
rounded by `toFixed` to a given number of decimals. -/
inductive CostDisplay where
  | dash : CostDisplay
  | dollars : ℚ → ℕ → CostDisplay
deriving Repr, DecidableEq

/-- `formatCost(run, model)` from the dashboard page (the string `$…` is
modelled as the rounded amount plus the decimal count it is printed with). -/
def formatCost (run : RunRow) (model : Option CatalogModel) : CostDisplay :=
  match model.bind (·.costPer1MTokens) with
  | none => .dash
  | some p =>
      let inp : ℚ := (run.total_input_tokens.getD 0 : ℕ)
      let out : ℚ := (run.total_output_tokens.getD 0 : ℕ)
      if inp = 0 ∧ out = 0 then .dash
      else
        let cost := (inp / 1000000) * p.input + (out / 1000000) * p.output
        if cost < 1 / 100 then .dollars (toFixedQ 4 cost) 4
        else if cost < 1 then .dollars (toFixedQ 3 cost) 3
        else .dollars (toFixedQ 2 cost) 2

/-! ### Cost efficiency (`ComparisonCharts.tsx` `CostEfficiencyChart` data map) -/

/-- The per-run body of `CostEfficiencyChart`'s `runs.map`: `null` when
`cost == null || cost === 0 || r.avg_score == null`, else
`+(scorePct / cost).toFixed(1)` with `scorePct = Math.round(avg_score*100)`. -/
def costEfficiency (run : RunRow) (model : Option CatalogModel) : Option ℚ :=
  match computeRunCost run model, run.avg_score with
  | some cost, some s =>
      if cost = 0 then none
      else
        let scorePct : ℤ := jsRound (s * 100)
        some (toFixedQ 1 ((scorePct : ℚ) / cost))
  | _, _ => none

/-! ### Chart label (`ComparisonCharts.tsx` `getLabel`) -/

/-- `run.model.includes("/") ? run.model.split("/").pop()! : run.model`. -/
def getLabelSegment (run : RunRow) : String :=
  if jsIncludesChar run.model '/' then jsSplitLast run.model '/' else run.model

/-- `getLabel(run)` from `ComparisonCharts.tsx`:
`model.length > 28 ? model.slice(0, 26) + "..." : model`. -/
def getLabel (run : RunRow) : String :=
  let model := getLabelSegment run
  if 28 < strLen model then jsConcat (jsSlice model 26) "..." else model

/-! ### Prompt preview (`part_001` `truncatePrompt`) -/

/-- `truncatePrompt(text, max)` from the dashboard page.  JS `!text` is true
for `undefined` and for the empty string. -/
def truncatePrompt (text : Option String) (maxLen : ℕ) : String :=
  match text with
  | none => "—"
  | some t =>
      if t = "" then "—"
      else if strLen t ≤ maxLen then t
      else jsConcat (trimEnd (jsSlice t maxLen)) "..."

/-! ### Catalog index (`part_001` `DashboardPage` catalog effect)

`const map = new Map(); for (const m of catalog.models) map.set(m.id, m);` -/

/-- The model index built in `DashboardPage`'s catalog effect. -/
def buildIndex (models : List CatalogModel) : List (String × CatalogModel) :=
  models.foldl (fun m mo => mapSet m mo.id mo) []

/-! ### Provider logo URL (`ModelBadge` module) -/

/-- `getProviderSlug(model)`: `model.id.indexOf("/") > 0 ?
model.id.slice(0, slash) : model.provider`. -/
def getProviderSlug (model : CatalogModel) : String :=
  match model.id.toList.findIdx? (· = '/') with
  | some i => if 0 < i then String.mk (model.id.toList.take i) else model.provider
  | none => model.provider

/-- `getModelLogoUrl(model)` from the `ModelBadge` module. -/
def getModelLogoUrl (model : CatalogModel) : String :=
  jsConcat (jsConcat "https://models.dev/logos/" (getProviderSlug model)) ".svg"

/-! ### Score by release date (`ComparisonCharts.tsx`
`PerformanceByReleaseDateChart`) -/

/-- One entry of the chart's `bestByModel` map (`logoUrl` included; the
display-only `dateTs`/`dateLabel` fields added later are omitted). -/
structure ReleasePoint where
  score : ℤ
  releaseDate : String
  name : String
  logoUrl : String
deriving Repr, DecidableEq

/-- The `bestByModel` loop of `PerformanceByReleaseDateChart`.  Note the
source's replacement test `r.avg_score > existing.score` compares the new
fractional score (0–1) against the stored rounded percentage (0–100). -/
def bestByModel (modelMap : List (String × CatalogModel)) (runs : List RunRow) :
    List (String × ReleasePoint) :=
  runs.foldl
    (fun acc r =>
      match mapGet modelMap r.model with
      | none => acc
      | some model =>
          match model.releaseDate, r.avg_score with
          | some rd, some s =>
              let keep : Bool :=
                match mapGet acc r.model with
                | none => true
                | some existing => decide (s > (existing.score : ℚ))
              if keep then
                mapSet acc r.model
                  ⟨jsRound (s * 100), rd, model.displayName, getModelLogoUrl model⟩
              else acc
          | _, _ => acc)
    []

/-- Insertion of one element into a `releaseDate`-sorted list (string
comparison stands in for `localeCompare`, which agrees with it on the
ISO-style ASCII dates of the data model). -/
def insertByReleaseDate (p : ReleasePoint) : List ReleasePoint → List ReleasePoint
  | [] => [p]
  | q :: t =>
      if p.releaseDate ≤ q.releaseDate then p :: q :: t
      else q :: insertByReleaseDate p t

/-- `Array.from(bestByModel.values()).sort((a, b) =>
a.releaseDate.localeCompare(b.releaseDate))`. -/
def releaseDateData (modelMap : List (String × CatalogModel))
    (runs : List RunRow) : List ReleasePoint :=
  ((bestByModel modelMap runs).map (·.2)).foldr insertByReleaseDate []

/-! ### Summary cards (`ComparisonCharts.tsx` `SummaryCards`)

The unseeded `Array.prototype.reduce` throws a `TypeError` on an empty array;
that error branch is the `none` of the embeddings below. -/

/-- `runs.reduce((a, b) => (a.avg_score ?? 0) >= (b.avg_score ?? 0) ? a : b)`. -/
def bestRun : List RunRow → Option RunRow
  | [] => none
  | h :: t =>
      some (t.foldl (fun a b =>
        if (b.avg_score.getD 0) ≤ (a.avg_score.getD 0) then a else b) h)

/-- JS `(a ?? Infinity) <= (b ?? Infinity)` on durations: `none` is Infinity. -/
def durOrInfLE (a b : Option ℚ) : Bool :=
  match a, b with
  | none, none => true
  | none, some _ => false
  | some _, none => true
  | some x, some y => decide (x ≤ y)

/-- `runs.reduce((a, b) => (a.total_duration_ms ?? Infinity) <=
(b.total_duration_ms ?? Infinity) ? a : b)`. -/
def fastestRun : List RunRow → Option RunRow
  | [] => none
  | h :: t =>
      some (t.foldl (fun a b =>
        if durOrInfLE a.total_duration_ms b.total_duration_ms then a else b) h)

/-- `runs.reduce((sum, r) => sum + (r.avg_score ?? 0), 0) / runs.length`
(`none` is the NaN an empty list would produce). -/
def meanScore (runs : List RunRow) : Option ℚ :=
  if runs.length = 0 then none
  else some ((runs.foldl (fun sum r => sum + r.avg_score.getD 0) 0) / runs.length)

/-! ### Column filter control (`part_001` `ColumnFilter`) -/

/-- JS `Set` insertion-order deduplication (first occurrence kept). -/
def jsSetDedup (l : List String) : List String :=
  l.foldl (fun acc v => if v ∈ acc then acc else acc ++ [v]) []

/-- Insertion of one string into a sorted list, for `Array.prototype.sort`
(default comparator = code-unit order). -/
def insertStr (v : String) : List String → List String
  | [] => [v]
  | w :: t => if v ≤ w then v :: w :: t else w :: insertStr v t

/-- `Array.from(new Set(rows.map(r => String(r.getValue(col) ?? "")))).sort()`:
the distinct stringified values of the column over the faceted rows.  The
faceted row model itself comes from the table library; the column accessor and
the faceted rows are parameters. -/
def facetedValues {α : Type} (getVal : α → Option String)
    (facetRows : List α) : List String :=
  (jsSetDedup (facetRows.map (fun r => (getVal r).getD ""))).foldr insertStr []

/-- `ColumnFilter`'s render: `if (values.length <= 1) return null` else the
dropdown options (the `"All"` option has value `""`). -/
def columnFilterControl {α : Type} (getVal : α → Option String)
    (facetRows : List α) : Option (List String) :=
  let values := facetedValues getVal facetRows
  if values.length ≤ 1 then none else some values

/-- JS `e.target.value || undefined` in `ColumnFilter`'s `onChange`. -/
def jsOrUndefined (v : String) : Option String :=
  if v = "" then none else some v

/-- Modelled from the spec: the table library's `column.setFilterValue`
(`@tanstack/react-table`, not part of this repository) upserts the column's
term in the column-filters state and removes the term when the value is
`undefined`. -/
def setFilterValue (state : List (String × String)) (colId : String) :
    Option String → List (String × String)
  | none => state.filter (fun e => e.1 ≠ colId)
  | some v =>
      if state.any (fun e => e.1 = colId) then
        state.map (fun e => if e.1 = colId then (colId, v) else e)
      else state ++ [(colId, v)]

/-! ### Memoized dataset load (`part_000` `loadData`)

Each `loadData()` call runs synchronously from its start up to the first
`await` (so the `if (cached) return cached` check and the issuing of the
fetch are one atomic step), then suspends; when its fetch resolves, the
`cached = await res.json()` assignment and the return run as one step (no
caller code runs between the two consecutive awaits).  The event loop may
interleave the steps of concurrent calls arbitrarily. -/

/-- The phase of one `loadData()` invocation. -/
inductive CallPhase (α : Type) where
  | start : CallPhase α
  | awaitingFetch : CallPhase α
  | done : α → CallPhase α
deriving Repr, DecidableEq

/-- The module state of the api: the `cached` variable, the number of `fetch`
calls issued, the number of writes to `cached`, and the phase of each
outstanding `loadData()` call. -/
structure LoadSystem (α : Type) where
  cached : Option α
  fetchCount : ℕ
  cacheWrites : ℕ
  calls : List (CallPhase α)
deriving Repr, DecidableEq

/-- One event-loop step of the `loadData` implementation, with the fetch
resolving to `data`. -/
inductive LoadStep (α : Type) (data : α) : LoadSystem α → LoadSystem α → Prop where
  | hitCache (s : LoadSystem α) (i : ℕ) (v : α) :
      s.calls.get? i = some .start → s.cached = some v →
      LoadStep α data s { s with calls := s.calls.set i (.done v) }
  | beginFetch (s : LoadSystem α) (i : ℕ) :
      s.calls.get? i = some .start → s.cached = none →
      LoadStep α data s
        { s with calls := s.calls.set i .awaitingFetch,
                 fetchCount := s.fetchCount + 1 }
  | resolveFetch (s : LoadSystem α) (i : ℕ) :
      s.calls.get? i = some .awaitingFetch →
      LoadStep α data s
        { s with calls := s.calls.set i (.done data),
                 cached := some data,
                 cacheWrites := s.cacheWrites + 1 }

/-! ## Theorems -/

/-- C1: the resolver feeding the comparison view returns exactly the selected
rows when at least 2 rows are selected and exactly the filtered rows when 0
or 1 are selected, and the comparison view is rendered iff the resolved set
has at least 2 rows. -/
theorem C1_resolver_feeds_comparison (sel fil : List RunRow) :
    (2 ≤ sel.length → resolveChartRuns sel fil = sel) ∧
    (sel.length ≤ 1 → resolveChartRuns sel fil = fil) ∧
    (comparisonRendered (resolveChartRuns sel fil) = true ↔
      2 ≤ (resolveChartRuns sel fil).length) := by
  refine ⟨fun h => ?_, fun h => ?_, ?_⟩
  · simp [resolveChartRuns, h]
  · have h2 : ¬ 2 ≤ sel.length := by omega
    simp [resolveChartRuns, h2]
  · simp [comparisonRendered]

/-- C2: the computed cost is defined iff the joined model is present with a
pricing entry and at least one token count is nonzero; when defined it is
`(input/1e6)*price_in + (output/1e6)*price_out`; and the formatted cost shows
the em-dash (never a zero amount) exactly when the cost is undefined. -/
theorem C2_cost_invariant (run : RunRow) (model : Option CatalogModel) :
    ((computeRunCost run model).isSome ↔
      ((∃ m, model = some m ∧ ∃ p, m.costPer1MTokens = some p) ∧
        (run.total_input_tokens.getD 0 ≠ 0 ∨ run.total_output_tokens.getD 0 ≠ 0))) ∧
    (∀ m p c, model = some m → m.costPer1MTokens = some p →
      computeRunCost run model = some c →
      c = ((run.total_input_tokens.getD 0 : ℚ) / 1000000) * p.input +
          ((run.total_output_tokens.getD 0 : ℚ) / 1000000) * p.output) ∧
    (formatCost run model = CostDisplay.dash ↔ computeRunCost run model = none) := by
  rcases model with _ | m
  · simp [computeRunCost, formatCost]
  rcases hp : m.costPer1MTokens with _ | p
  · simp [computeRunCost, formatCost, hp]
  by_cases hz : run.total_input_tokens.getD 0 = 0 ∧ run.total_output_tokens.getD 0 = 0
  · refine ⟨?_, ?_, ?_⟩
    · simp [computeRunCost, hp, hz.1, hz.2]
    · intro m' p' c _ _ hc
      simp [computeRunCost, hp, hz.1, hz.2] at hc
    · simp [formatCost, computeRunCost, hp, hz.1, hz.2]
  · have hz' : ¬(((run.total_input_tokens.getD 0 : ℕ) : ℚ) = 0 ∧
        ((run.total_output_tokens.getD 0 : ℕ) : ℚ) = 0) := by
      simpa using hz
    refine ⟨?_, ?_, ?_⟩
    · simp only [computeRunCost, Option.some_bind, hp, if_neg hz', Option.isSome_some]
      constructor
      · intro _
        exact ⟨⟨m, rfl, p, hp⟩, by tauto⟩
      · intro _
        trivial
    · intro m' p' c hm hp' hc
      obtain rfl : m = m' := Option.some.inj hm
      rw [hp] at hp'
      obtain rfl : p = p' := Option.some.inj hp'
      simp only [computeRunCost, Option.some_bind, hp, if_neg hz',
        Option.some.injEq] at hc
      exact hc.symm
    · simp only [formatCost, computeRunCost, Option.some_bind, hp, if_neg hz']
      split_ifs <;> simp

/-- The cost computed with non-negative prices is non-negative. -/
theorem computeRunCost_nonneg (run : RunRow) (m : CatalogModel) (p : Pricing)
    (hp : m.costPer1MTokens = some p) (hin : 0 ≤ p.input) (hout : 0 ≤ p.output)
    (c : ℚ) (hc : computeRunCost run (some m) = some c) : 0 ≤ c := by
  simp only [computeRunCost, Option.some_bind, hp] at hc
  split at hc
  · exact absurd hc (by simp)
  · obtain rfl : _ = c := by injection hc
    have h1 : (0 : ℚ) ≤ (run.total_input_tokens.getD 0 : ℚ) / 1000000 := by positivity
    have h2 : (0 : ℚ) ≤ (run.total_output_tokens.getD 0 : ℚ) / 1000000 := by positivity
    have := mul_nonneg h1 hin
    have := mul_nonneg h2 hout
    linarith

/-- C3: cost-efficiency is undefined unless cost is defined and strictly
positive and the average score is defined; when defined it is
`round(score_pct / cost, 1)` with `score_pct = round(avg_score * 100)`
(prices being non-negative, as the data model's cost pairs are). -/
theorem C3_cost_efficiency (run : RunRow) (model : Option CatalogModel)
    (hprice : ∀ m p, model = some m → m.costPer1MTokens = some p →
      0 ≤ p.input ∧ 0 ≤ p.output) :
    ((costEfficiency run model).isSome ↔
      ((∃ c, computeRunCost run model = some c ∧ 0 < c) ∧ run.avg_score.isSome)) ∧
    (∀ c s, computeRunCost run model = some c → run.avg_score = some s → c ≠ 0 →
      costEfficiency run model =
        some (toFixedQ 1 ((jsRound (s * 100) : ℚ) / c))) := by
  constructor
  · rcases hc : computeRunCost run model with _ | c
    · simp [costEfficiency, hc]
    · rcases hs : run.avg_score with _ | s
      · simp [costEfficiency, hc, hs]
      · have hnn : 0 ≤ c := by
          rcases model with _ | m
          · exact absurd hc (by simp [computeRunCost])
          · rcases hp : m.costPer1MTokens with _ | p
            · exact absurd hc (by simp [computeRunCost, hp])
            · obtain ⟨hin, hout⟩ := hprice m p rfl hp
              exact computeRunCost_nonneg run m p hp hin hout c hc
        by_cases h0 : c = 0
        · simp [costEfficiency, hc, hs, h0]
        · have hpos : 0 < c := lt_of_le_of_ne hnn (Ne.symm h0)
          simp only [costEfficiency, hc, hs, if_neg h0, Option.isSome_some,
            true_iff]
          exact ⟨⟨c, rfl, hpos⟩, by simp⟩
  · intro c s hc hs h0
    simp [costEfficiency, hc, hs, h0]

/-! ### Concrete sample data for instantiations -/

/-- A completed run used in concrete instantiations. -/
def sampleRun (id model : String) (score : Option ℚ) : RunRow :=
  ⟨id, "completed", "ds", "v1", "s1", "harness", "prov", model, 10, 10, score,
   some 1000, "2024-01-01T00:00:00Z", none, some 2000000, some 1000000, none⟩

/-- A catalog model used in concrete instantiations. -/
def sampleModel (id : String) (price : Option Pricing)
    (releaseDate : Option String) : CatalogModel :=
  ⟨"prov", id, "Model", none, true, true, releaseDate, price, none, none⟩

/-- C4: the release-date chart does not keep the maximum-score run.  With two
runs of one model scoring 0.5 then 0.9, the retained point carries the first
run's rounded percentage 50, not the maximum 90: the source compares the new
fractional score (0–1) against the stored rounded percentage (0–100), so the
0.9-run never replaces the 0.5-run. -/
theorem C4_release_chart_keeps_first_not_max :
    ((bestByModel (buildIndex [sampleModel "m" none (some "2024-01-01")])
        [sampleRun "r1" "m" (some (1 / 2)), sampleRun "r2" "m" (some (9 / 10))]).map
      (fun e => (e.1, e.2.score)) = [("m", 50)]) ∧
    jsRound ((9 : ℚ) / 10 * 100) = 90 := by
  refine ⟨?_, ?_⟩
  · simp [bestByModel, buildIndex, sampleModel, sampleRun, mapSet, mapGet]
    have h1 : jsRound ((2 : ℚ)⁻¹ * 100) = 50 := by
      rw [jsRound, round_eq]
      norm_num
    rw [h1]
    split_ifs with hc
    · norm_num at hc
    · simp
  · rw [jsRound, round_eq]
    norm_num

/-- C5: the dataset load is not safe under concurrent first access.  From two
`loadData()` calls that both start before the first fetch resolves, the
event loop reaches a state with `fetchCount = 2` and `cacheWrites = 2`: each
call sees `cached == null`, issues its own fetch, and writes the cache. -/
theorem C5_concurrent_calls_fetch_twice :
    Relation.ReflTransGen (LoadStep ℕ 42)
      ⟨none, 0, 0, [CallPhase.start, CallPhase.start]⟩
      ⟨some 42, 2, 2, [CallPhase.done 42, CallPhase.done 42]⟩ := by
  have s1 : LoadStep ℕ 42
      ⟨none, 0, 0, [CallPhase.start, CallPhase.start]⟩
      ⟨none, 1, 0, [CallPhase.awaitingFetch, CallPhase.start]⟩ :=
    LoadStep.beginFetch _ 0 rfl rfl
  have s2 : LoadStep ℕ 42
      ⟨none, 1, 0, [CallPhase.awaitingFetch, CallPhase.start]⟩
      ⟨none, 2, 0, [CallPhase.awaitingFetch, CallPhase.awaitingFetch]⟩ :=
    LoadStep.beginFetch _ 1 rfl rfl
  have s3 : LoadStep ℕ 42
      ⟨none, 2, 0, [CallPhase.awaitingFetch, CallPhase.awaitingFetch]⟩
      ⟨some 42, 2, 1, [CallPhase.done 42, CallPhase.awaitingFetch]⟩ :=
    LoadStep.resolveFetch _ 0 rfl
  have s4 : LoadStep ℕ 42
      ⟨some 42, 2, 1, [CallPhase.done 42, CallPhase.awaitingFetch]⟩
      ⟨some 42, 2, 2, [CallPhase.done 42, CallPhase.done 42]⟩ :=
    LoadStep.resolveFetch _ 1 rfl
  exact .tail (.tail (.tail (.single s1) s2) s3) s4

/-! ### String lemmas -/

theorem toList_mk (l : List Char) : (String.mk l).toList = l := rfl

theorem strLen_jsConcat (a b : String) :
    strLen (jsConcat a b) = strLen a + strLen b := by
  simp [strLen, jsConcat, toList_mk]

theorem strLen_trimEnd_le (s : String) : strLen (trimEnd s) ≤ strLen s := by
  simp only [strLen, trimEnd, toList_mk, List.length_reverse]
  exact (List.dropWhile_sublist _).length_le.trans (by simp)

theorem take_append_left_of_length_eq (l₁ l₂ : List Char) (n : ℕ)
    (h : l₁.length = n) : (l₁ ++ l₂).take n = l₁ := by
  subst h
  exact List.take_left _ _

theorem jsConcat_dots_suffix (a : String) :
    (jsConcat a "...").toList.reverse.take 3 = ['.', '.', '.'] := by
  simp only [jsConcat, toList_mk, List.reverse_append]
  rw [show ("...".toList.reverse) = ['.', '.', '.'] from rfl]
  exact take_append_left_of_length_eq _ _ _ rfl

/-- The claim's label derivation: the model id with any leading provider
segment (everything up to and including the first slash) stripped. -/
def claimStripProvider (m : String) : String :=
  match m.toList.findIdx? (· = '/') with
  | some i => String.mk (m.toList.drop (i + 1))
  | none => m

/-- C6 fails on the code: for model id `a/b/c` the label is the last segment
`c`, not the provider-stripped `b/c` the claim requires (which, at 3 ≤ 28
characters, the claim says is returned verbatim); and for a long id the label
is 29 characters, exceeding the claimed bound of 28. -/
theorem C6_counterexample :
    getLabel (sampleRun "r" "a/b/c" none) = "c" ∧
    claimStripProvider "a/b/c" = "b/c" ∧
    strLen (claimStripProvider "a/b/c") ≤ 28 ∧
    getLabel (sampleRun "r" "a/b/c" none) ≠ claimStripProvider "a/b/c" ∧
    strLen (getLabel
      (sampleRun "r" "openai/really-long-model-name-that-exceeds-28" none)) = 29 := by
  decide

/-- C6 (amended): the chart label is the segment of the model id after the
last slash (the whole id when it has no slash); when that segment is longer
than 28 characters the label is the segment's first 26 characters followed by
three dots — 29 characters in all. -/
theorem C6_amended_label (run : RunRow) :
    (strLen (getLabelSegment run) ≤ 28 → getLabel run = getLabelSegment run) ∧
    (28 < strLen (getLabelSegment run) →
      strLen (getLabel run) = 29 ∧
      jsSlice (getLabel run) 26 = jsSlice (getLabelSegment run) 26 ∧
      (getLabel run).toList.reverse.take 3 = ['.', '.', '.']) := by
  constructor
  · intro h
    have h2 : ¬ 28 < strLen (getLabelSegment run) := by omega
    simp [getLabel, h2]
  · intro h
    simp only [getLabel, if_pos h]
    have hlen : ((getLabelSegment run).toList.take 26).length = 26 := by
      have h' : 28 < (getLabelSegment run).toList.length := h
      rw [List.length_take]
      omega
    refine ⟨?_, ?_, jsConcat_dots_suffix _⟩
    · rw [strLen_jsConcat]
      have : strLen (jsSlice (getLabelSegment run) 26) = 26 := by
        simpa [strLen, jsSlice, toList_mk] using hlen
      rw [this]
      rfl
    · simp only [jsSlice, jsConcat, toList_mk]
      exact congrArg String.mk (take_append_left_of_length_eq _ _ _ hlen)

/-- C7 fails on the code: the empty text (length 0 ≤ 72) is not returned
unchanged but replaced by the em-dash, and an 80-character text truncated at
72 yields 75 characters, exceeding the claimed bound of 72. -/
theorem C7_counterexample :
    truncatePrompt (some "") 72 = "—" ∧ ("—" : String) ≠ "" ∧
    72 < strLen (String.mk (List.replicate 80 'a')) ∧
    strLen (truncatePrompt (some (String.mk (List.replicate 80 'a'))) 72) = 75 := by
  decide

/-- C7 (amended): the prompt-preview formatter returns the em-dash for a
missing or empty text, the text unchanged when its length is at most `max`,
and otherwise a truncation that ends with the three-dot marker and has at
most `max + 3` characters. -/
theorem C7_amended_truncate (t : String) (maxLen : ℕ) :
    (truncatePrompt none maxLen = "—") ∧
    (truncatePrompt (some "") maxLen = "—") ∧
    (t ≠ "" → strLen t ≤ maxLen → truncatePrompt (some t) maxLen = t) ∧
    (t ≠ "" → maxLen < strLen t →
      strLen (truncatePrompt (some t) maxLen) ≤ maxLen + 3 ∧
      (truncatePrompt (some t) maxLen).toList.reverse.take 3 = ['.', '.', '.']) := by
  refine ⟨rfl, by simp [truncatePrompt], fun h1 h2 => ?_, fun h1 h2 => ?_⟩
  · simp [truncatePrompt, h1, h2]
  · have h3 : ¬ strLen t ≤ maxLen := by omega
    simp only [truncatePrompt, if_neg h1, if_neg h3]
    refine ⟨?_, jsConcat_dots_suffix _⟩
    rw [strLen_jsConcat]
    have hs : strLen (trimEnd (jsSlice t maxLen)) ≤ maxLen := by
      refine (strLen_trimEnd_le _).trans ?_
      simp [strLen, jsSlice, toList_mk, List.length_take]
    have hd : strLen ("..." : String) = 3 := rfl
    omega

/-! ### Facet and map lemmas -/

theorem length_insertStr (v : String) (l : List String) :
    (insertStr v l).length = l.length + 1 := by
  induction l with
  | nil => rfl
  | cons w t ih =>
      simp only [insertStr]
      split
      · simp
      · simp [ih]

theorem length_sortStr (l : List String) :
    (l.foldr insertStr []).length = l.length := by
  induction l with
  | nil => rfl
  | cons v t ih => simp [length_insertStr, ih]

theorem jsSetDedup_loop (l acc : List String) (h : acc.Nodup) :
    (l.foldl (fun acc v => if v ∈ acc then acc else acc ++ [v]) acc).Nodup ∧
    (l.foldl (fun acc v => if v ∈ acc then acc else acc ++ [v]) acc).toFinset =
      acc.toFinset ∪ l.toFinset := by
  induction l generalizing acc with
  | nil => simp [h]
  | cons v t ih =>
      simp only [List.foldl_cons]
      by_cases hv : v ∈ acc
      · rw [if_pos hv]
        obtain ⟨h1, h2⟩ := ih acc h
        refine ⟨h1, ?_⟩
        rw [h2]
        ext x
        simp only [Finset.mem_union, List.mem_toFinset, List.toFinset_cons,
          Finset.mem_insert]
        constructor
        · rintro (hx | hx)
          · exact Or.inl hx
          · exact Or.inr (Or.inr hx)
        · rintro (hx | rfl | hx)
          · exact Or.inl hx
          · exact Or.inl hv
          · exact Or.inr hx
      · rw [if_neg hv]
        have hnd : (acc ++ [v]).Nodup := by simp [List.nodup_append, h, hv]
        obtain ⟨h1, h2⟩ := ih (acc ++ [v]) hnd
        refine ⟨h1, ?_⟩
        rw [h2]
        ext x
        simp only [Finset.mem_union, List.mem_toFinset, List.toFinset_cons,
          Finset.mem_insert, List.mem_append, List.mem_singleton]
        tauto

theorem length_facetedValues {α : Type} (getVal : α → Option String)
    (rows : List α) :
    (facetedValues getVal rows).length =
      ((rows.map (fun r => (getVal r).getD "")).toFinset).card := by
  obtain ⟨h1, h2⟩ :=
    jsSetDedup_loop (rows.map (fun r => (getVal r).getD "")) [] (by simp)
  rw [facetedValues, length_sortStr, jsSetDedup,
    ← List.toFinset_card_of_nodup h1, h2]
  simp

/-- C8: the filter control renders nothing exactly when the column's faceted
set of distinct stringified values has at most one element, and selecting the
"All" option (value `""`) sets the filter to the cleared `undefined` state,
which removes exactly that column's term from the column-filters state. -/
theorem C8_filter_control {α : Type} (getVal : α → Option String)
    (facetRows : List α) (st : List (String × String)) (colId : String) :
    (columnFilterControl getVal facetRows = none ↔
      ((facetRows.map (fun r => (getVal r).getD "")).toFinset).card ≤ 1) ∧
    (jsOrUndefined "" = none) ∧
    ((setFilterValue st colId (jsOrUndefined "")).all
      (fun e => decide (e.1 ≠ colId)) = true) ∧
    (∀ e ∈ st, e.1 ≠ colId → e ∈ setFilterValue st colId (jsOrUndefined "")) ∧
    (∀ e ∈ setFilterValue st colId (jsOrUndefined ""), e ∈ st) := by
  refine ⟨?_, rfl, ?_, ?_, ?_⟩
  · simp only [columnFilterControl, ← length_facetedValues getVal facetRows]
    split_ifs with hc
    · simp [hc]
    · simp [hc]
  · simp [setFilterValue, jsOrUndefined, List.all_eq_true, List.mem_filter]
  · intro e he hne
    simp [setFilterValue, jsOrUndefined, List.mem_filter, he, hne]
  · intro e he
    exact List.mem_of_mem_filter he

theorem mapGet_mapSet {α : Type} (m : List (String × α)) (k k2 : String) (v : α) :
    mapGet (mapSet m k v) k2 = if k = k2 then some v else mapGet m k2 := by
  induction m with
  | nil => simp [mapSet, mapGet]
  | cons e t ih =>
      obtain ⟨k', v'⟩ := e
      by_cases h1 : k' = k
      · subst h1
        simp only [mapSet, if_pos rfl, mapGet]
        by_cases h2 : k' = k2
        · subst h2
          simp
        · simp [h2]
      · simp only [mapSet, if_neg h1, mapGet]
        by_cases h2 : k' = k2
        · have h3 : ¬ (k = k2) := fun hh => h1 (h2.trans hh.symm)
          simp [h2, h3]
        · simp [h2, ih]

theorem mapGet_buildIndex_loop (l : List CatalogModel)
    (acc : List (String × CatalogModel)) (k : String) :
    mapGet (l.foldl (fun m mo => mapSet m mo.id mo) acc) k =
      (l.reverse.find? (fun m => m.id == k)).or (mapGet acc k) := by
  induction l generalizing acc with
  | nil => simp
  | cons x t ih =>
      simp only [List.foldl_cons, List.reverse_cons]
      rw [ih, List.find?_append]
      cases hf : t.reverse.find? (fun m => m.id == k) with
      | some m => simp
      | none =>
          simp only [Option.none_or]
          rw [mapGet_mapSet]
          by_cases hx : x.id = k
          · simp [List.find?, hx]
          · have hb : (x.id == k) = false := beq_eq_false_iff_ne.mpr hx
            simp only [List.find?, hb, Option.none_or, if_neg hx]

/-- C9: the catalog index maps every id occurring in the input to a model,
and on duplicate ids the last entry of the input list wins (the lookup always
returns the last model in the list bearing the id). -/
theorem C9_buildIndex_last_wins (models : List CatalogModel) (k : String) :
    mapGet (buildIndex models) k = models.reverse.find? (fun m => m.id == k) ∧
    ((mapGet (buildIndex models) k).isSome ↔ k ∈ models.map (·.id)) := by
  have h : mapGet (buildIndex models) k =
      models.reverse.find? (fun m => m.id == k) := by
    have h2 := mapGet_buildIndex_loop models [] k
    simpa [buildIndex, mapGet] using h2
  refine ⟨h, ?_⟩
  rw [h, List.find?_isSome]
  constructor
  · rintro ⟨a, ha, hp⟩
    exact List.mem_map.mpr ⟨a, List.mem_reverse.mp ha, beq_iff_eq.mp hp⟩
  · intro hk
    obtain ⟨a, ha, hak⟩ := List.mem_map.mp hk
    exact ⟨a, List.mem_reverse.mpr ha, beq_iff_eq.mpr hak⟩

/-- C10: whenever the comparison guard passes (the resolved set has at least
2 rows), the summary-statistics scans of `SummaryCards` are total: the two
unseeded reduces cannot hit their empty-array error branch and the mean's
division is by a nonzero length. -/
theorem C10_summary_total (sel fil : List RunRow)
    (h : comparisonRendered (resolveChartRuns sel fil) = true) :
    (bestRun (resolveChartRuns sel fil)).isSome = true ∧
    (fastestRun (resolveChartRuns sel fil)).isSome = true ∧
    (meanScore (resolveChartRuns sel fil)).isSome = true := by
  have h2 : 2 ≤ (resolveChartRuns sel fil).length := by
    simpa [comparisonRendered] using h
  rcases hr : resolveChartRuns sel fil with _ | ⟨x, t⟩
  · rw [hr] at h2
    simp at h2
  · refine ⟨rfl, rfl, ?_⟩
    simp [meanScore]

/-- C10 witness: with two concrete selected runs resolved for comparison, the
summary statistics are all defined. -/
theorem C10_summary_total_witness :
    (bestRun (resolveChartRuns
      [sampleRun "w1" "m" (some (1 / 2)), sampleRun "w2" "m" (some (3 / 4))]
      [])).isSome = true ∧
    (fastestRun (resolveChartRuns
      [sampleRun "w1" "m" (some (1 / 2)), sampleRun "w2" "m" (some (3 / 4))]
      [])).isSome = true ∧
    (meanScore (resolveChartRuns
      [sampleRun "w1" "m" (some (1 / 2)), sampleRun "w2" "m" (some (3 / 4))]
      [])).isSome = true :=
  C10_summary_total
    [sampleRun "w1" "m" (some (1 / 2)), sampleRun "w2" "m" (some (3 / 4))] []
    rfl

/-- C3 witness: a run with score 0.95 and 2M/1M tokens on a \$3/\$15-per-1M
model costs \$21 and has efficiency `round(95 / 21, 1) = 4.5`. -/
theorem C3_cost_efficiency_witness :
    costEfficiency (sampleRun "w" "m" (some (95 / 100)))
      (some (sampleModel "m" (some ⟨3, 15⟩) none)) = some (9 / 2) := by
  have hp : ∀ m p,
      (some (sampleModel "m" (some ⟨3, 15⟩) none) : Option CatalogModel) = some m →
      m.costPer1MTokens = some p → 0 ≤ p.input ∧ 0 ≤ p.output := by
    intro m p hm hpp
    obtain rfl := Option.some.inj hm
    simp only [sampleModel, Option.some.injEq] at hpp
    obtain rfl := hpp.symm
    exact ⟨by norm_num, by norm_num⟩
  have hc : computeRunCost (sampleRun "w" "m" (some (95 / 100)))
      (some (sampleModel "m" (some ⟨3, 15⟩) none)) = some 21 := by
    simp [computeRunCost, sampleModel, sampleRun]
    norm_num
  have h := (C3_cost_efficiency (sampleRun "w" "m" (some (95 / 100)))
      (some (sampleModel "m" (some ⟨3, 15⟩) none)) hp).2 21 (95 / 100) hc rfl
      (by norm_num)
  rw [h]
  have hr : jsRound ((95 : ℚ) / 100 * 100) = 95 := by
    rw [jsRound, round_eq]
    norm_num
  rw [hr, toFixedQ, round_eq]
  norm_num

end BenchmarkDashboard
